import Mathlib

/-!
Verification of the Novel-Image-Generator core (src/core/utils.py,
src/core/layout.py, src/core/parser.py, src/core/renderer.py) against its
natural-language specification.

Strings are modelled as `List Char` (`Str`); Python integers are modelled as
`Int` where they can go negative (pixel geometry) and as `Nat` where the code
only ever passes non-negative values (font sizes, character counts, indices).
Python loops are translated into structural recursions; where a loop's
termination is by a decreasing measure rather than by structure, the measure
is supplied as fuel that provably exceeds the number of iterations.
-/

abbrev Str := List Char

/-- Whitespace as Python classifies it: the set of characters for which
`str.isspace()` is true, which is also the set matched by the regex class
`\s` on `str` patterns.  Used by `str.strip()`, by `textwrap`'s chunk
splitting and by its `drop_whitespace` test. -/
def pyIsSpace (c : Char) : Bool :=
  let v := c.toNat
  (9 ≤ v && v ≤ 13) || v == 32 || (28 ≤ v && v ≤ 31) || v == 0x85 ||
    v == 0xA0 || v == 0x1680 || (0x2000 ≤ v && v ≤ 0x200A) ||
    v == 0x2028 || v == 0x2029 || v == 0x202F || v == 0x205F || v == 0x3000

/-- Python `s.strip()` with no argument: remove leading and trailing
whitespace characters. -/
def pyStrip (s : Str) : Str :=
  (s.dropWhile pyIsSpace).rdropWhile pyIsSpace

/-- utils.is_empty_line: `not line.strip()`. -/
def is_empty_line (line : Str) : Bool :=
  (pyStrip line).isEmpty

/-- Python `text.split("\n")`: split on every newline, keeping empty pieces;
the result always has at least one element (`"".split("\n") == [""]`). -/
def splitNl (s : Str) : List Str :=
  s.foldr
    (fun c acc =>
      match acc with
      | p :: rest => if c = '\n' then [] :: p :: rest else (c :: p) :: rest
      | [] => [[c]])
    [[]]

/-- Python `str.expandtabs()` with the default tab size 8, as invoked by
`textwrap`'s `_munge_whitespace`: each tab becomes spaces up to the next
column multiple of 8; the column counter advances by one for every other
character and resets after a newline or carriage return. -/
def expandTabs : Str → Nat → Str
  | [], _ => []
  | c :: cs, col =>
    if c = '\t' then
      List.replicate (8 - col % 8) ' ' ++ expandTabs cs (col + (8 - col % 8))
    else if c = '\n' ∨ c = '\r' then
      c :: expandTabs cs 0
    else
      c :: expandTabs cs (col + 1)

/-- The translation step of `textwrap._munge_whitespace` with
`replace_whitespace=True`: each of `"\t\n\x0b\x0c\r"` becomes a space
(other Unicode whitespace is left alone by this step). -/
def translateWs (s : Str) : Str :=
  s.map (fun c =>
    if c = '\t' ∨ c = '\n' ∨ c = '\x0b' ∨ c = '\x0c' ∨ c = '\r' then ' ' else c)

/-- textwrap._munge_whitespace with the default options: expand tabs, then
replace the ASCII control whitespace by spaces. -/
def mungeWhitespace (s : Str) : Str :=
  translateWs (expandTabs s 0)

/-- textwrap's chunk splitting: the munged text is cut into maximal runs of
whitespace and of non-whitespace (this is the `wordsep_simple_re` split; the
default `break_on_hyphens` refinement additionally subdivides non-whitespace
runs at certain hyphens, which only moves the break points chosen inside
overlong words and is not modelled). Every chunk is non-empty and the chunks
concatenate back to the munged text. -/
def splitChunks (s : Str) : List Str :=
  s.foldr
    (fun c acc =>
      match acc with
      | [] => [[c]]
      | [] :: rest => [c] :: [] :: rest
      | (d :: ds) :: rest =>
        if pyIsSpace c = pyIsSpace d then (c :: d :: ds) :: rest
        else [c] :: (d :: ds) :: rest)
    []

/-- Total length of a list of chunks, `sum(map(len, chunks))`. -/
def sumLen (l : List Str) : Nat :=
  (l.map List.length).sum

/-- The inner greedy loop of `textwrap._wrap_chunks`: starting from
accumulated length `cur`, move whole chunks onto the current line while the
line stays within `width`. Returns (chunks taken, chunks left). -/
def takeFit (width : Nat) : Nat → List Str → List Str × List Str
  | _, [] => ([], [])
  | cur, c :: cs =>
    if cur + c.length ≤ width then
      let p := takeFit width (cur + c.length) cs
      (c :: p.1, p.2)
    else ([], c :: cs)

/-- One full pass of `textwrap._wrap_chunks` (defaults plus
`break_long_words=True`, `max_lines=None`, empty indents), iterated on fuel.
Each iteration: when output lines already exist and the first remaining
chunk is pure whitespace, drop it (`drop_whitespace`); greedily fill a line;
if the next chunk alone exceeds the width, break it and take the prefix that
still fits (`_handle_long_word`; its `break_on_hyphens` preference for
breaking at a hyphen inside the overflowing word is not modelled); drop a
trailing whitespace chunk from the line; emit the line if non-empty.  The
fuel passed by `textwrap_wrap` exceeds the possible number of iterations
(every iteration removes at least one chunk or at least one character), so
the fuel never runs out there.  `wrapStep` is one iteration of the while loop
(returning the emitted line, if any, and the remaining chunks), and
`wrapLoopFuel` iterates it; the Boolean tracks whether any line has been
emitted yet, which is what the `lines` list's non-emptiness controls in the
original. -/
def wrapFill (width : Nat) : List Str → Option Str × List Str
  | [] => (none, [])
  | c1 :: rest1 =>
    let p := takeFit width 0 (c1 :: rest1)
    let curLen := sumLen p.1
    let q :=
      match p.2 with
      | r :: rs =>
        if width < r.length then
          let spaceLeft := if width < 1 then 1 else width - curLen
          (p.1 ++ [r.take spaceLeft], r.drop spaceLeft :: rs)
        else (p.1, r :: rs)
      | [] => (p.1, [])
    let line :=
      match q.1.getLast? with
      | some t => if (pyStrip t).isEmpty then q.1.dropLast else q.1
      | none => q.1
    if line.isEmpty then (none, q.2) else (some line.flatten, q.2)

def wrapStep (width : Nat) (c0 : Str) (rest0 : List Str) (haveLines : Bool) :
    Option Str × List Str :=
  wrapFill width (if haveLines && (pyStrip c0).isEmpty then rest0 else c0 :: rest0)

def wrapLoopFuel (width : Nat) : Nat → List Str → Bool → List Str
  | 0, _, _ => []
  | _ + 1, [], _ => []
  | fuel + 1, c0 :: rest0, haveLines =>
    match wrapStep width c0 rest0 haveLines with
    | (none, rest) => wrapLoopFuel width fuel rest haveLines
    | (some line, rest) => line :: wrapLoopFuel width fuel rest true

/-- Model of CPython `textwrap.wrap(text, width=w, break_long_words=True)`
(all other options default) as called by layout._wrap_text.  For `width = 0`
the original raises ValueError; this model returns `[]` there (the program
only calls it with `max_chars_per_line ≥ 1`). -/
def textwrap_wrap (text : Str) (width : Nat) : List Str :=
  let chunks := splitChunks (mungeWhitespace text)
  wrapLoopFuel width (sumLen chunks + chunks.length + 1) chunks false

/-- The body of the per-paragraph loop of
layout.TextLayoutCalculator._wrap_text: a blank paragraph contributes one
empty line; otherwise the paragraph is wrapped, and a paragraph whose
wrapping comes back empty also contributes one empty line. -/
def wrap_paragraph (p : Str) (maxChars : Nat) : List Str :=
  if (pyStrip p).isEmpty then [[]]
  else
    let wrapped := textwrap_wrap p maxChars
    if wrapped.isEmpty then [[]] else wrapped

/-- layout.TextLayoutCalculator._wrap_text: split the text on explicit
newlines and wrap each paragraph independently, concatenating the lines (the
`orientation` argument of the original is unused by its body). -/
def wrap_text (text : Str) (maxChars : Nat) : List Str :=
  (splitNl text).flatMap (fun p => wrap_paragraph p maxChars)

/-! Layout engine data model (src/core/layout.py). Pixel coordinates are
Python ints and may go negative before clamping, so they are modelled as
`Int`; font sizes and per-line character counts are the non-negative inputs
of the program and are modelled as `Nat`. -/

inductive TextOrientation where
  | horizontal
  | vertical
deriving DecidableEq, Repr

structure TextBlock where
  text : Str
  lines : List Str
  width : Int
  height : Int
  line_height : Int
  char_width : Int
  orientation : TextOrientation
deriving DecidableEq, Repr

structure BubbleLayout where
  text_block : TextBlock
  bubble_x : Int
  bubble_y : Int
  bubble_width : Int
  bubble_height : Int
  text_x : Int
  text_y : Int
  padding : Int
deriving DecidableEq, Repr

/-- utils.clamp_value: `max(min_val, min(max_val, value))`. -/
def clamp_value (value minVal maxVal : Int) : Int :=
  max minVal (min maxVal value)

/-- The length of the longest wrapped line:
`max(len(line) for line in lines) if lines else 0`. -/
def maxLineLen (lines : List Str) : Nat :=
  (lines.map List.length).foldr max 0

/-- layout.TextLayoutCalculator.calculate_text_block.  Blank text yields the
zero-sized block with no lines.  Otherwise `char_width = font_size` and
`line_height = int(font_size * 1.2)`, which for the integer font sizes the
program passes equals `font_size * 12 / 10` in integer division; a VERTICAL
block is `lines × char_width` wide and `longest line × char_width` tall, a
HORIZONTAL block is transposed with `line_height` as the row step. -/
def calculate_text_block (text : Str) (font_size max_chars : Nat)
    (orientation : TextOrientation) : TextBlock :=
  if (pyStrip text).isEmpty then
    ⟨[], [], 0, 0, 0, 0, orientation⟩
  else
    let line_height : Int := (font_size * 12) / 10
    let char_width : Int := font_size
    let lines := wrap_text text max_chars
    match orientation with
    | TextOrientation.vertical =>
      ⟨text, lines, lines.length * char_width, (maxLineLen lines) * char_width,
        line_height, char_width, orientation⟩
    | TextOrientation.horizontal =>
      ⟨text, lines, (maxLineLen lines) * char_width, lines.length * line_height,
        line_height, char_width, orientation⟩

/-- layout.TextLayoutCalculator.calculate_serif_bubble_layout.  The text is
always wrapped vertically; the panel adds a 20px padding on each side; the
"top_right" position anchors at the top-right corner minus the 40px margin,
any other position string anchors at the bottom-left; both coordinates are
then clamped into the canvas minus the margin. -/
def calculate_serif_bubble_layout (canvas_width canvas_height : Int)
    (text : Str) (font_size max_chars : Nat) (position : Str) : BubbleLayout :=
  let text_block := calculate_text_block text font_size max_chars TextOrientation.vertical
  let bubble_width := text_block.width + 20 * 2
  let bubble_height := text_block.height + 20 * 2
  let bubble_x0 :=
    if position = "top_right".toList then canvas_width - bubble_width - 40
    else 40
  let bubble_y0 :=
    if position = "top_right".toList then 40
    else canvas_height - bubble_height - 40
  let bubble_x := clamp_value bubble_x0 40 (canvas_width - bubble_width - 40)
  let bubble_y := clamp_value bubble_y0 40 (canvas_height - bubble_height - 40)
  ⟨text_block, bubble_x, bubble_y, bubble_width, bubble_height,
    bubble_x + 20, bubble_y + 20, 20⟩

/-- layout.TextLayoutCalculator._bubbles_overlap: axis-aligned rectangle
intersection test. -/
def bubbles_overlap (b1 b2 : BubbleLayout) : Bool :=
  !(decide (b1.bubble_x + b1.bubble_width < b2.bubble_x) ||
    decide (b2.bubble_x + b2.bubble_width < b1.bubble_x) ||
    decide (b1.bubble_y + b1.bubble_height < b2.bubble_y) ||
    decide (b2.bubble_y + b2.bubble_height < b1.bubble_y))

/-- layout.TextLayoutCalculator._adjust_bubble_position: push the later
bubble below the existing one with a 20px gap; if that leaves the canvas
minus the 40px margin, push it above instead, floored at the margin.  Only
`bubble_y` and `text_y` change. -/
def adjust_bubble_position (canvas_height : Int)
    (bubble existing : BubbleLayout) : BubbleLayout :=
  let newY0 := existing.bubble_y + existing.bubble_height + 20
  let newY :=
    if canvas_height - 40 < newY0 + bubble.bubble_height then
      max 40 (existing.bubble_y - bubble.bubble_height - 20)
    else newY0
  ⟨bubble.text_block, bubble.bubble_x, newY, bubble.bubble_width,
    bubble.bubble_height, bubble.text_x, newY + bubble.padding, bubble.padding⟩

/-- The inner loop of layout.TextLayoutCalculator.adjust_bubble_positions:
test the incoming bubble against every already-placed bubble in order,
re-adjusting on each detected overlap. -/
def adjust_against (canvas_height : Int) (placed : List BubbleLayout)
    (bubble : BubbleLayout) : BubbleLayout :=
  placed.foldl
    (fun cur existing =>
      if bubbles_overlap cur existing then
        adjust_bubble_position canvas_height cur existing
      else cur)
    bubble

/-- layout.TextLayoutCalculator.adjust_bubble_positions: lists of at most one
bubble are returned unchanged; otherwise each bubble in input order is
adjusted against the already-placed ones and appended. -/
def adjust_bubble_positions (canvas_height : Int)
    (bubbles : List BubbleLayout) : List BubbleLayout :=
  if bubbles.length ≤ 1 then bubbles
  else
    bubbles.foldl
      (fun placed b => placed ++ [adjust_against canvas_height placed b])
      []

/-! Primitives from src/core/utils.py and the glyph substitution of
src/core/renderer.py. -/

/-- renderer.ImageRenderer._convert_char_for_vertical: the per-character
substitution applied before drawing vertical text.  The first table maps the
long-vowel and dash characters KATAKANA-HIRAGANA PROLONGED SOUND MARK
(U+30FC), MINUS SIGN (U+2212), HORIZONTAL BAR (U+2015) and BOX DRAWINGS
LIGHT HORIZONTAL (U+2500) to FULLWIDTH VERTICAL LINE (U+FF5C); the second
maps HORIZONTAL ELLIPSIS (U+2026) and MIDLINE HORIZONTAL ELLIPSIS (U+22EF)
to PRESENTATION FORM FOR VERTICAL HORIZONTAL ELLIPSIS (U+FE19), and WAVE
DASH (U+301C) and FULLWIDTH TILDE (U+FF5E) to PRESENTATION FORM FOR
VERTICAL WAVY LOW LINE (U+FE34); the commented-out bracket table of the
original is dead code; every other character passes through unchanged. -/
def convert_char_for_vertical (c : Char) : Char :=
  if c = 'ー' ∨ c = '−' ∨ c = '―' ∨ c = '─' then '｜'
  else if c = '…' ∨ c = '⋯' then '︙'
  else if c = '〜' ∨ c = '～' then '︴'
  else c

/-- The characters Windows forbids in filenames, the character class of the
regex `[<>:"/\\|?*]` in utils.sanitize_filename. -/
def isInvalidFilenameChar (c : Char) : Bool :=
  c = '<' || c = '>' || c = ':' || c = '\"' || c = '/' || c = '\\' ||
    c = '|' || c = '?' || c = '*'

/-- The substitution `re.sub(r"_+", "_", s)`: every maximal run of
underscores collapses to a single underscore. -/
def collapseUnderscores (s : Str) : Str :=
  s.foldr
    (fun c acc =>
      if c = '_' ∧ acc.head? = some '_' then acc else c :: acc)
    []

/-- Membership in the strip set of `s.strip("_ ")`. -/
def isUnderscoreOrSpace (c : Char) : Bool :=
  c = '_' || c = ' '

/-- Python `s.strip("_ ")`: remove leading and trailing underscores and
spaces. -/
def stripUnderscoreSpace (s : Str) : Str :=
  (s.dropWhile isUnderscoreOrSpace).rdropWhile isUnderscoreOrSpace

/-- utils.sanitize_filename: replace the Windows-invalid characters by
underscores, collapse underscore runs, strip leading and trailing
underscores and spaces, and fall back to "untitled" when nothing is left. -/
def sanitize_filename (filename : Str) : Str :=
  let replaced := filename.map (fun c => if isInvalidFilenameChar c then '_' else c)
  let collapsed := collapseUnderscores replaced
  let stripped := stripUnderscoreSpace collapsed
  if stripped.isEmpty then "untitled".toList else stripped

/-- Decimal digits of a natural number, most significant first, on fuel
(`n + 1` steps always suffice since the argument shrinks tenfold each
step). -/
def decimalDigitsAux : Nat → Nat → Str
  | 0, _ => []
  | fuel + 1, n =>
    if n = 0 then []
    else decimalDigitsAux fuel (n / 10) ++ [Char.ofNat (48 + n % 10)]

/-- Decimal representation of a natural number, as Python `str(n)` for
non-negative n. -/
def decimalRepr (n : Nat) : Str :=
  if n = 0 then ['0'] else decimalDigitsAux (n + 1) n

/-- Python `f"{index:03d}"` for a non-negative index: the decimal digits,
left-padded with zeros to at least three digits. -/
def pad3 (n : Nat) : Str :=
  let d := decimalRepr n
  List.replicate (3 - d.length) '0' ++ d

/-- utils.generate_output_filename: strip leading dots from the extension
and produce `base_name + "_" + zero-padded index + "." + extension`. -/
def generate_output_filename (base_name : Str) (index : Nat) (extension : Str) : Str :=
  base_name ++ '_' :: pad3 index ++ '.' :: extension.dropWhile (fun c => c = '.')

/-! Parser data model and passes (src/core/parser.py). -/

inductive BlockType where
  | scene_only
  | scene_with_serifs
  | narration
  | page_break
deriving DecidableEq, Repr, Inhabited

structure SerifData where
  text : Str
  position : Str
  order : Nat
deriving DecidableEq, Repr, Inhabited

structure SceneBlock where
  block_type : BlockType
  scene_number : Option Str
  serifs : List SerifData
  narration_text : Str
  is_empty_after_scene : Bool
  raw_lines : List Str
deriving DecidableEq, Repr, Inhabited

/-- ASCII lowercasing, the effect of `re.IGNORECASE` on the ASCII letters of
the tag patterns (the Unicode case-folding oddities such as U+017F are not
modelled; no claim depends on them). -/
def asciiLower (c : Char) : Char :=
  if 'A' ≤ c ∧ c ≤ 'Z' then Char.ofNat (c.toNat + 32) else c

/-- The capture of `re.compile(r"\[scene:([^\]]+)\]", re.IGNORECASE)`
matching at the start of the line: a literal `[scene:` (case-insensitive),
then one or more characters other than `]` (the greedy capture runs to the
first `]`), then `]`. -/
def scene_capture : Str → Option Str
  | '[' :: rest =>
    if (rest.take 6).map asciiLower = "scene:".toList then
      let after := rest.drop 6
      let cap := after.takeWhile (fun c => c ≠ ']')
      if cap ≠ [] ∧ (after.drop cap.length).head? = some ']' then some cap
      else none
    else none
  | _ => none

/-- `self.scene_pattern.match(line)` viewed as a Boolean: the pattern
matches a prefix of the line. -/
def scene_match (line : Str) : Bool :=
  (scene_capture line).isSome

/-- utils.extract_scene_number: `re.search` the same pattern anywhere in the
string and return the first capture. -/
def extract_scene_number : Str → Option Str
  | [] => none
  | c :: cs =>
    match scene_capture (c :: cs) with
    | some cap => some cap
    | none => extract_scene_number cs

/-- `self.para_pattern.match(line)`: the line starts with `[para]`,
case-insensitively. -/
def para_match (line : Str) : Bool :=
  (line.take 6).map asciiLower = "[para]".toList

/-- `re.findall(r"「([^」]*)」", text)`, written as the equivalent one-pass
scan: outside a match, skip until an opening `「`; inside, accumulate
characters until the closing `」` and emit the capture, or emit nothing if
the text ends first.  This agrees with the regex scan: `findall` matches at
the earliest `「` that still has a `」` after it, the capture `[^」]*` runs
to the first `」`, and scanning resumes after it; if the first remaining
`「` has no later `」` then no later position can match either. -/
def serif_findall_aux : Option Str → Str → List Str
  | _, [] => []
  | none, c :: cs =>
    if c = '「' then serif_findall_aux (some []) cs
    else serif_findall_aux none cs
  | some acc, c :: cs =>
    if c = '」' then acc.reverse :: serif_findall_aux none cs
    else serif_findall_aux (some (c :: acc)) cs

/-- The raw captures of the dialogue regex on one line, in order. -/
def serif_findall (s : Str) : List Str :=
  serif_findall_aux none s

/-- utils.parse_serif_text: the regex captures, stripped, keeping only the
ones that are non-blank after stripping. -/
def parse_serif_text (s : Str) : List Str :=
  ((serif_findall s).map pyStrip).filter (fun t => !t.isEmpty)

/-- parser.NovelTextParser._add_serifs_to_block, acting on the block's
serif list: each incoming serif text is appended while the list holds fewer
than `Constants.MAX_SERIFS_PER_SCENE = 2` entries, the first at position
"top_right" with order 1, the second at "bottom_left" with order 2; once
the cap is reached the loop breaks and the remaining texts are dropped. -/
def add_serifs_to_block (serifs : List SerifData) : List Str → List SerifData
  | [] => serifs
  | t :: ts =>
    if 2 ≤ serifs.length then serifs
    else
      add_serifs_to_block
        (serifs ++ [⟨t,
          (if serifs.length = 0 then "top_right".toList else "bottom_left".toList),
          serifs.length + 1⟩]) ts

/-- A fresh block opened by a scene tag (kind defaults to SCENE_ONLY and is
revised by finalization). -/
def newSceneBlock (num : Option Str) (raw : List Str) (emptyAfter : Bool) : SceneBlock :=
  ⟨BlockType.scene_only, num, [], [], emptyAfter, raw⟩

/-- Append the in-progress block, if any, to the accumulated blocks. -/
def pushCur : Option SceneBlock → List SceneBlock → List SceneBlock
  | none, acc => acc
  | some b, acc => acc ++ [b]

/-- Record a raw line on the in-progress block, if any. -/
def appendRaw : Option SceneBlock → Str → Option SceneBlock
  | none, _ => none
  | some b, line => some { b with raw_lines := b.raw_lines ++ [line] }

/-- The non-tag, non-blank branch of parser.NovelTextParser.parse_lines:
open an implicit NARRATION block when none is in progress, record the raw
line, extract dialogue; when dialogue is found append it (capped at 2) and
revise the kind - with a scene number present only a NARRATION block whose
caption is still blank is reclassified to SCENE_WITH_SERIFS, without a
scene number the block is always reclassified; when no dialogue is found
the line joins the caption text, newline-separated. -/
def processTextLine (cur : Option SceneBlock) (line : Str) : SceneBlock :=
  let b0 : SceneBlock :=
    match cur with
    | none => ⟨BlockType.narration, none, [], [], false, []⟩
    | some b => b
  let b1 := { b0 with raw_lines := b0.raw_lines ++ [line] }
  let serifs := parse_serif_text line
  if serifs.isEmpty then
    { b1 with narration_text :=
        if b1.narration_text.isEmpty then line
        else b1.narration_text ++ '\n' :: line }
  else
    let b2 := { b1 with serifs := add_serifs_to_block b1.serifs serifs }
    if b2.scene_number.isSome then
      if b2.block_type = BlockType.narration ∧ (pyStrip b2.narration_text).isEmpty then
        { b2 with block_type := BlockType.scene_with_serifs }
      else b2
    else { b2 with block_type := BlockType.scene_with_serifs }

/-- The while-loop of parser.NovelTextParser.parse_lines.  Each line is
stripped and matched in priority order: scene tag (closing any in-progress
block, and consuming one immediately following blank line, which marks the
block), page-break tag (closing any in-progress block and appending a
standalone PAGE_BREAK block), blank line (recorded raw on the in-progress
block), and plain text (processTextLine).  At the end of input the
in-progress block, if any, is appended. -/
def parse_lines_loop : List Str → Option SceneBlock → List SceneBlock → List SceneBlock
  | [], cur, acc => pushCur cur acc
  | [l], cur, acc =>
    let line := pyStrip l
    if scene_match line then
      pushCur cur acc ++ [newSceneBlock (extract_scene_number line) [line] false]
    else if para_match line then
      pushCur cur acc ++ [(⟨BlockType.page_break, none, [], [], false, [line]⟩ : SceneBlock)]
    else if is_empty_line line then
      pushCur (appendRaw cur line) acc
    else
      pushCur (some (processTextLine cur line)) acc
  | l :: r :: rest, cur, acc =>
    let line := pyStrip l
    if scene_match line then
      let acc1 := pushCur cur acc
      let num := extract_scene_number line
      if is_empty_line r then
        parse_lines_loop rest (some (newSceneBlock num [line, r] true)) acc1
      else
        parse_lines_loop (r :: rest) (some (newSceneBlock num [line] false)) acc1
    else if para_match line then
      parse_lines_loop (r :: rest) none
        (pushCur cur acc ++ [⟨BlockType.page_break, none, [], [], false, [line]⟩])
    else if is_empty_line line then
      parse_lines_loop (r :: rest) (appendRaw cur line) acc
    else
      parse_lines_loop (r :: rest) (some (processTextLine cur line)) acc

/-- parser.NovelTextParser._finalize_block_types, on one block: page breaks
are untouched; a scene-tagged block with the blank-after-tag mark, no
dialogue and a blank caption is SCENE_ONLY, with dialogue it is
SCENE_WITH_SERIFS, otherwise NARRATION; an untagged block is
SCENE_WITH_SERIFS exactly when it has dialogue. -/
def finalize_block_type (b : SceneBlock) : SceneBlock :=
  if b.block_type = BlockType.page_break then b
  else if b.scene_number.isSome then
    if b.is_empty_after_scene ∧ b.serifs.isEmpty ∧ (pyStrip b.narration_text).isEmpty then
      { b with block_type := BlockType.scene_only }
    else if !b.serifs.isEmpty then { b with block_type := BlockType.scene_with_serifs }
    else { b with block_type := BlockType.narration }
  else if !b.serifs.isEmpty then { b with block_type := BlockType.scene_with_serifs }
  else { b with block_type := BlockType.narration }

/-- parser.NovelTextParser.parse_lines: run the line loop, then finalize
every block's kind. -/
def parse_lines (lines : List Str) : List SceneBlock :=
  (parse_lines_loop lines none []).map finalize_block_type

/-! Output generation and validation passes (src/core/parser.py), and the
instruction loop of src/core/renderer.py. -/

structure OutputBlock where
  type : Str
  scene_number : Option Str
  serifs : List SerifData
  narration : Str
deriving DecidableEq, Repr, Inhabited

/-- The carry-forward of the current scene number in
parser.NovelTextParser.generate_output_blocks: page breaks are skipped
before the update, and a block with a scene number of its own installs it. -/
def updateScene (cur : Option Str) (b : SceneBlock) : Option Str :=
  if b.block_type = BlockType.page_break then cur
  else
    match b.scene_number with
    | some n => some n
    | none => cur

/-- The current scene number after a prefix of blocks has been walked. -/
def threadScene (cur : Option Str) (blocks : List SceneBlock) : Option Str :=
  blocks.foldl updateScene cur

/-- The loop of parser.NovelTextParser.generate_output_blocks with the
current scene number as explicit state: PAGE_BREAK blocks are skipped;
SCENE_ONLY emits one image_only instruction; SCENE_WITH_SERIFS emits one
image_with_serifs instruction and, when the block's caption text is
non-blank, a narration instruction right after it with the same (updated)
scene number and the stripped caption; NARRATION emits one narration
instruction with the stripped caption.  (The original copies each SerifData
into a dict with the same three fields; the copy is modelled as the
SerifData value itself.) -/
def generate_output_aux : Option Str → List SceneBlock → List OutputBlock
  | _, [] => []
  | cur, b :: rest =>
    if b.block_type = BlockType.page_break then generate_output_aux cur rest
    else
      let cur2 :=
        match b.scene_number with
        | some n => some n
        | none => cur
      if b.block_type = BlockType.scene_only then
        ⟨"image_only".toList, cur2, [], []⟩ :: generate_output_aux cur2 rest
      else if b.block_type = BlockType.scene_with_serifs then
        ⟨"image_with_serifs".toList, cur2, b.serifs, []⟩ ::
          ((if !(pyStrip b.narration_text).isEmpty then
              [(⟨"narration".toList, cur2, [], pyStrip b.narration_text⟩ : OutputBlock)]
            else []) ++ generate_output_aux cur2 rest)
      else if b.block_type = BlockType.narration then
        ⟨"narration".toList, cur2, [], pyStrip b.narration_text⟩ ::
          generate_output_aux cur2 rest
      else
        generate_output_aux cur2 rest

/-- parser.NovelTextParser.generate_output_blocks: walk the finalized
blocks with the current scene number initially unset. -/
def generate_output_blocks (blocks : List SceneBlock) : List OutputBlock :=
  generate_output_aux none blocks

/-- The warnings of parser.NovelTextParser.validate_text_structure, with
the Japanese message strings abstracted into constructors carrying the same
data (duplicated scene number; 1-based block index and serif count for the
over-capacity check; 1-based block index for each blank serif). -/
inductive StructureWarning where
  | duplicate_scene (scene_number : Str)
  | serif_over_capacity (block_index : Nat) (count : Nat)
  | empty_serif (block_index : Nat)
deriving DecidableEq, Repr

/-- parser.NovelTextParser.validate_text_structure as a fold: for each
block, warn on a scene number already seen (the seen set is modelled as a
list with set membership), warn when the serif count exceeds
`Constants.MAX_SERIFS_PER_SCENE = 2`, and warn for every serif whose text is
blank after stripping. -/
def validate_loop : List SceneBlock → Nat → List Str → List StructureWarning
  | [], _, _ => []
  | b :: rest, i, seen =>
    let dup :=
      match b.scene_number with
      | some n => if n ∈ seen then [StructureWarning.duplicate_scene n] else []
      | none => []
    let seen2 :=
      match b.scene_number with
      | some n => if n ∈ seen then seen else seen ++ [n]
      | none => seen
    let over :=
      if 2 < b.serifs.length then
        [StructureWarning.serif_over_capacity (i + 1) b.serifs.length]
      else []
    let empt :=
      b.serifs.filterMap
        (fun s => if (pyStrip s.text).isEmpty then some (StructureWarning.empty_serif (i + 1)) else none)
    dup ++ over ++ empt ++ validate_loop rest (i + 1) seen2

def validate_text_structure (blocks : List SceneBlock) : List StructureWarning :=
  validate_loop blocks 0 []

/-- The three observable ways one instruction of renderer.render_novel_blocks
can turn out, abstracting the drawing and file I/O of the injected renderer:
the render call returns True and its output file is written (`ok`), it
returns False (`fail`), or it raises and the exception is caught by the
per-instruction handler (`exc`). -/
inductive RenderOutcome where
  | ok
  | fail
  | exc
deriving DecidableEq, Repr

/-- The error entries renderer.render_novel_blocks can append, with the
Japanese message strings abstracted into constructors carrying the 1-based
instruction index the message interpolates. -/
inductive RenderError where
  | unknown_type (index : Nat)
  | failed (index : Nat)
  | raised (index : Nat)
deriving DecidableEq, Repr

/-- The recognized instruction kinds of the dispatch in
renderer.render_novel_blocks. -/
def valid_block_type (t : Str) : Bool :=
  decide (t = "image_only".toList) || decide (t = "image_with_serifs".toList) ||
    decide (t = "narration".toList)

/-- The instruction loop of renderer.render_novel_blocks, with the outcome
of each attempted instruction supplied by the oracle `outcome` (indexed by
the 1-based sequence index): an exception anywhere in the loop body yields
one error entry; an unknown instruction type yields the unknown-type error
followed by the generic failure error; a render call that returns False
yields the generic failure error; a successful render writes one file named
by utils.generate_output_filename with the default "jpg" extension (the
renderer builds this path via _generate_output_path on the sanitized base
name).  In every case the index advances by exactly one per instruction.
The scene-number carry-forward of the original only selects which background
image the renderer loads and is not part of these observables. -/
def render_loop (outcome : Nat → RenderOutcome) (san : Str) :
    List OutputBlock → Nat → List RenderError × List Str
  | [], _ => ([], [])
  | b :: rest, index =>
    let step : List RenderError × List Str :=
      match outcome index with
      | RenderOutcome.exc => ([RenderError.raised index], [])
      | RenderOutcome.ok =>
        if valid_block_type b.type then
          ([], [generate_output_filename san index "jpg".toList])
        else ([RenderError.unknown_type index, RenderError.failed index], [])
      | RenderOutcome.fail =>
        if valid_block_type b.type then ([RenderError.failed index], [])
        else ([RenderError.unknown_type index, RenderError.failed index], [])
    let restR := render_loop outcome san rest (index + 1)
    (step.1 ++ restR.1, step.2 ++ restR.2)

/-- renderer.render_novel_blocks: run the loop with the sequence index
starting at 1, sanitizing the base name once (the original sanitizes it
inside every _generate_output_path call, with the same result), and report
overall success as the absence of errors together with the error list. -/
def render_novel_blocks (outcome : Nat → RenderOutcome) (base_name : Str)
    (blocks : List OutputBlock) : Bool × List RenderError × List Str :=
  let r := render_loop outcome (sanitize_filename base_name) blocks 1
  (r.1.isEmpty, r.1, r.2)

/-! Vocabulary used by the property statements. -/

/-- The closed vertical spans `[bubble_y, bubble_y + bubble_height]` of two
bubbles have a common point. -/
def vertSpansIntersect (b1 b2 : BubbleLayout) : Prop :=
  b1.bubble_y ≤ b2.bubble_y + b2.bubble_height ∧
    b2.bubble_y ≤ b1.bubble_y + b1.bubble_height

/-- Overlap resolution may move a bubble only vertically: everything except
`bubble_y` and `text_y` agrees with the input bubble. -/
def sameExceptVertical (b b' : BubbleLayout) : Prop :=
  b'.text_block = b.text_block ∧ b'.bubble_x = b.bubble_x ∧
    b'.bubble_width = b.bubble_width ∧ b'.bubble_height = b.bubble_height ∧
    b'.text_x = b.text_x ∧ b'.padding = b.padding

/-- The serif list of a block is well-slotted: at most two entries, the
first at position "top_right" with order 1, the second at "bottom_left"
with order 2. -/
def SerifOK : List SerifData → Prop
  | [] => True
  | [a] => a.position = "top_right".toList ∧ a.order = 1
  | [a, b] =>
    a.position = "top_right".toList ∧ a.order = 1 ∧
      b.position = "bottom_left".toList ∧ b.order = 2
  | _ => False

/-- Whether a string contains two adjacent underscores. -/
def hasDoubleUnderscore : Str → Bool
  | [] => false
  | [_] => false
  | a :: b :: t => (a == '_' && b == '_') || hasDoubleUnderscore (b :: t)

/-- The first character, if any, satisfies the predicate. -/
def headSatisfies (p : Char → Bool) (s : Str) : Bool :=
  match s.head? with
  | some c => p c
  | none => false

/-- The last character, if any, satisfies the predicate. -/
def lastSatisfies (p : Char → Bool) (s : Str) : Bool :=
  match s.getLast? with
  | some c => p c
  | none => false

/-- Whether a warning is the over-capacity warning of
validate_text_structure. -/
def isOverCapacityWarning : StructureWarning → Bool
  | StructureWarning.serif_over_capacity _ _ => true
  | _ => false

/-- A bubble too tall for the canvas: pushing it below the first bubble
overflows the canvas, pushing it above floors at the margin, which is the
original position. -/
def c4TallBubble : BubbleLayout :=
  ⟨⟨[], [], 0, 0, 0, 0, TextOrientation.vertical⟩, 40, 40, 100, 700, 60, 60, 20⟩

/-- A bubble short enough that pushing it below the first bubble stays on
the canvas. -/
def c4ShortBubble : BubbleLayout :=
  ⟨⟨[], [], 0, 0, 0, 0, TextOrientation.vertical⟩, 40, 40, 100, 100, 60, 60, 20⟩

/-- One input line carrying three dialogue spans. -/
def c2DemoLines : List Str :=
  [['「', 'A', '」', '「', 'B', '」', '「', 'C', '」']]

/-- The block the parser produces for c2DemoLines: two serifs kept, the
third dropped. -/
def c2DemoBlock : SceneBlock :=
  ⟨BlockType.scene_with_serifs, none,
    [⟨['A'], "top_right".toList, 1⟩, ⟨['B'], "bottom_left".toList, 2⟩],
    [], false, [['「', 'A', '」', '「', 'B', '」', '「', 'C', '」']]⟩

/-- A finalized SCENE_WITH_SERIFS block with a non-blank caption. -/
def c3DemoBlock : SceneBlock :=
  ⟨BlockType.scene_with_serifs, some ['0', '0', '1'],
    [⟨['A'], "top_right".toList, 1⟩], ['x'], false, []⟩

/-! Theorems. -/

/-- C7: the per-character substitution applied before drawing VERTICAL text
maps each of the four dash-like characters to the fullwidth vertical line,
the two ellipses to the vertical ellipsis, the two tildes to the vertical
wavy line, and returns every other character unchanged. -/
theorem convert_char_for_vertical_spec :
    (convert_char_for_vertical 'ー' = '｜' ∧ convert_char_for_vertical '−' = '｜' ∧
      convert_char_for_vertical '―' = '｜' ∧ convert_char_for_vertical '─' = '｜' ∧
      convert_char_for_vertical '…' = '︙' ∧ convert_char_for_vertical '⋯' = '︙' ∧
      convert_char_for_vertical '〜' = '︴' ∧ convert_char_for_vertical '～' = '︴') ∧
    ∀ c : Char, c ≠ 'ー' → c ≠ '−' → c ≠ '―' → c ≠ '─' → c ≠ '…' → c ≠ '⋯' →
      c ≠ '〜' → c ≠ '～' → convert_char_for_vertical c = c := by
  refine ⟨by decide, ?_⟩
  intro c h1 h2 h3 h4 h5 h6 h7 h8
  unfold convert_char_for_vertical
  simp [h1, h2, h3, h4, h5, h6, h7, h8]

/-- Witness for C7: the pass-through case evaluated at a concrete
character. -/
theorem convert_char_for_vertical_spec_witness :
    convert_char_for_vertical 'あ' = 'あ' :=
  convert_char_for_vertical_spec.2 'あ' (by decide) (by decide) (by decide)
    (by decide) (by decide) (by decide) (by decide) (by decide)

lemma collapseUnderscores_cons (a : Char) (as : Str) :
    collapseUnderscores (a :: as) =
      if a = '_' ∧ (collapseUnderscores as).head? = some '_' then collapseUnderscores as
      else a :: collapseUnderscores as := rfl

lemma mem_of_mem_collapseUnderscores {c : Char} :
    ∀ {s : Str}, c ∈ collapseUnderscores s → c ∈ s := by
  intro s
  induction s with
  | nil => intro h; simp [collapseUnderscores] at h
  | cons a as ih =>
    intro h
    rw [collapseUnderscores_cons] at h
    split at h
    · exact List.mem_cons_of_mem _ (ih h)
    · rcases List.mem_cons.mp h with h | h
      · exact h ▸ List.mem_cons_self _ _
      · exact List.mem_cons_of_mem _ (ih h)

lemma hasDoubleUnderscore_tail {a : Char} {t : Str}
    (h : hasDoubleUnderscore (a :: t) = false) : hasDoubleUnderscore t = false := by
  cases t with
  | nil => rfl
  | cons b t2 =>
    have e : hasDoubleUnderscore (a :: b :: t2) =
        ((a == '_' && b == '_') || hasDoubleUnderscore (b :: t2)) := rfl
    rw [e, Bool.or_eq_false_iff] at h
    exact h.2

lemma hasDoubleUnderscore_append_right :
    ∀ (pre l : Str), hasDoubleUnderscore (pre ++ l) = false →
      hasDoubleUnderscore l = false := by
  intro pre
  induction pre with
  | nil => intro l h; simpa using h
  | cons a pre2 ih => intro l h; exact ih l (hasDoubleUnderscore_tail h)

lemma hasDoubleUnderscore_append_left :
    ∀ (l suf : Str), hasDoubleUnderscore (l ++ suf) = false →
      hasDoubleUnderscore l = false := by
  intro l
  induction l using hasDoubleUnderscore.induct with
  | case1 => intro suf h; rfl
  | case2 x => intro suf h; rfl
  | case3 a b t ih =>
    intro suf h
    have e : hasDoubleUnderscore (a :: b :: (t ++ suf)) =
        ((a == '_' && b == '_') || hasDoubleUnderscore (b :: (t ++ suf))) := rfl
    rw [List.cons_append, List.cons_append, e, Bool.or_eq_false_iff] at h
    have e2 : hasDoubleUnderscore (a :: b :: t) =
        ((a == '_' && b == '_') || hasDoubleUnderscore (b :: t)) := rfl
    rw [e2, Bool.or_eq_false_iff]
    exact ⟨h.1, ih suf h.2⟩

lemma hasDoubleUnderscore_collapse (s : Str) :
    hasDoubleUnderscore (collapseUnderscores s) = false := by
  induction s with
  | nil => rfl
  | cons a as ih =>
    rw [collapseUnderscores_cons]
    split
    · exact ih
    · rename_i hcond
      cases hval : collapseUnderscores as with
      | nil => rfl
      | cons b t =>
        have e : hasDoubleUnderscore (a :: b :: t) =
            ((a == '_' && b == '_') || hasDoubleUnderscore (b :: t)) := rfl
        rw [e, Bool.or_eq_false_iff]
        refine ⟨?_, hval ▸ ih⟩
        by_cases ha : a = '_'
        · have hb : b ≠ '_' := by
            intro hb
            exact hcond ⟨ha, by rw [hval, hb]; rfl⟩
          simp [hb]
        · simp [ha]

lemma headSatisfies_strip (q : Char → Bool) (l : Str) :
    headSatisfies q ((l.dropWhile q).rdropWhile q) = false := by
  cases hs : (l.dropWhile q).rdropWhile q with
  | nil => rfl
  | cons c t =>
    have hpre : (l.dropWhile q).rdropWhile q <+: l.dropWhile q :=
      List.rdropWhile_prefix q _
    rcases hpre with ⟨t2, ht2⟩
    rw [hs] at ht2
    have hne : l.dropWhile q ≠ [] := by
      rw [← ht2]; simp
    have hq : q ((l.dropWhile q).head hne) = false :=
      List.head_dropWhile_not q l hne
    have hc : (l.dropWhile q).head hne = c := by
      have : l.dropWhile q = c :: (t ++ t2) := by rw [← ht2]; simp
      simp [this]
    rw [hc] at hq
    simpa [headSatisfies] using hq

lemma lastSatisfies_rdropWhile (q : Char → Bool) (d : Str) :
    lastSatisfies q (d.rdropWhile q) = false := by
  by_cases hne : d.rdropWhile q = []
  · rw [lastSatisfies, hne]; rfl
  · have hq := List.rdropWhile_last_not q d hne
    rw [Bool.not_eq_true] at hq
    have hsome : (d.rdropWhile q).getLast? = some ((d.rdropWhile q).getLast hne) :=
      List.getLast?_eq_getLast _ hne
    rw [lastSatisfies, hsome]
    exact hq

/-- C10: for every input string, filename sanitization returns a non-empty
string containing none of the Windows-invalid characters, with no two
adjacent underscores and no leading or trailing underscore or space; when
stripping leaves nothing the result is exactly "untitled". -/
theorem sanitize_filename_spec :
    ∀ s : Str,
      (sanitize_filename s).isEmpty = false ∧
      (sanitize_filename s).all (fun c => !isInvalidFilenameChar c) = true ∧
      hasDoubleUnderscore (sanitize_filename s) = false ∧
      headSatisfies isUnderscoreOrSpace (sanitize_filename s) = false ∧
      lastSatisfies isUnderscoreOrSpace (sanitize_filename s) = false ∧
      (stripUnderscoreSpace (collapseUnderscores
          (s.map (fun c => if isInvalidFilenameChar c then '_' else c))) = [] →
        sanitize_filename s = "untitled".toList) := by
  intro s
  set replaced := s.map (fun c => if isInvalidFilenameChar c then '_' else c) with hrep
  set collapsed := collapseUnderscores replaced with hcol
  set stripped := stripUnderscoreSpace collapsed with hstr
  have hdef : sanitize_filename s =
      if stripped.isEmpty then "untitled".toList else stripped := rfl
  by_cases hempty : stripped.isEmpty
  · rw [hdef, if_pos hempty]
    refine ⟨by decide, by decide, by decide, by decide, by decide, fun _ => rfl⟩
  · rw [hdef, if_neg hempty]
    have hsub : ∀ c ∈ stripped, c ∈ collapsed := by
      intro c hc
      have h1 : stripped <+: collapsed.dropWhile isUnderscoreOrSpace :=
        List.rdropWhile_prefix _ _
      have h2 : collapsed.dropWhile isUnderscoreOrSpace <:+ collapsed :=
        List.dropWhile_suffix _
      exact List.IsSuffix.mem (List.IsPrefix.mem hc h1) h2
    refine ⟨by simpa using hempty, ?_, ?_, ?_, ?_, ?_⟩
    · rw [List.all_eq_true]
      intro c hc
      have hc2 : c ∈ replaced := mem_of_mem_collapseUnderscores (hsub c hc)
      rw [hrep, List.mem_map] at hc2
      rcases hc2 with ⟨a, _, ha⟩
      by_cases hinv : isInvalidFilenameChar a
      · rw [if_pos hinv] at ha
        rw [← ha]
        decide
      · rw [if_neg hinv] at ha
        rw [← ha]
        simpa using hinv
    · have h1 : stripped <+: collapsed.dropWhile isUnderscoreOrSpace :=
        List.rdropWhile_prefix _ _
      rcases h1 with ⟨t1, ht1⟩
      have h2 : collapsed.dropWhile isUnderscoreOrSpace <:+ collapsed :=
        List.dropWhile_suffix _
      rcases h2 with ⟨t2, ht2⟩
      have hcolfree : hasDoubleUnderscore collapsed = false :=
        hasDoubleUnderscore_collapse replaced
      have hmid : hasDoubleUnderscore (collapsed.dropWhile isUnderscoreOrSpace) = false := by
        refine hasDoubleUnderscore_append_right t2 _ ?_
        rw [ht2]; exact hcolfree
      exact hasDoubleUnderscore_append_left stripped t1 (by rw [ht1]; exact hmid)
    · exact headSatisfies_strip isUnderscoreOrSpace collapsed
    · exact lastSatisfies_rdropWhile isUnderscoreOrSpace _
    · intro h
      exact absurd (by rw [h]; rfl : List.isEmpty stripped = true) hempty

/-- Witness for C10: the fallback clause evaluated at a concrete input that
sanitizes to nothing. -/
theorem sanitize_filename_spec_witness :
    sanitize_filename ['<', ' ', '>'] = "untitled".toList :=
  (sanitize_filename_spec ['<', ' ', '>']).2.2.2.2.2 (by decide)

lemma clamp_value_of_hi_lt_lo (v lo hi : Int) (h : hi < lo) :
    clamp_value v lo hi = lo := by
  unfold clamp_value
  have hmin : min hi v ≤ hi := min_le_left _ _
  exact max_eq_left (le_of_lt (lt_of_le_of_lt hmin h))

/-- C5: a dialogue panel wider than `canvas_width - 2 * 40` is pinned to the
40px margin on the x axis, and one taller than `canvas_height - 2 * 40` is
pinned to the margin on the y axis, whichever anchor position was
requested. -/
theorem serif_bubble_layout_pinned :
    ∀ (cw ch : Int) (text : Str) (fs mc : Nat) (pos : Str),
      (cw - 2 * 40 < (calculate_serif_bubble_layout cw ch text fs mc pos).bubble_width →
        (calculate_serif_bubble_layout cw ch text fs mc pos).bubble_x = 40) ∧
      (ch - 2 * 40 < (calculate_serif_bubble_layout cw ch text fs mc pos).bubble_height →
        (calculate_serif_bubble_layout cw ch text fs mc pos).bubble_y = 40) := by
  intro cw ch text fs mc pos
  set tb := calculate_text_block text fs mc TextOrientation.vertical with htb
  have ew : (calculate_serif_bubble_layout cw ch text fs mc pos).bubble_width =
      tb.width + 20 * 2 := rfl
  have eh : (calculate_serif_bubble_layout cw ch text fs mc pos).bubble_height =
      tb.height + 20 * 2 := rfl
  have ex : (calculate_serif_bubble_layout cw ch text fs mc pos).bubble_x =
      clamp_value
        (if pos = "top_right".toList then cw - (tb.width + 20 * 2) - 40 else 40)
        40 (cw - (tb.width + 20 * 2) - 40) := rfl
  have ey : (calculate_serif_bubble_layout cw ch text fs mc pos).bubble_y =
      clamp_value
        (if pos = "top_right".toList then 40 else ch - (tb.height + 20 * 2) - 40)
        40 (ch - (tb.height + 20 * 2) - 40) := rfl
  constructor
  · intro h
    rw [ew] at h
    rw [ex]
    exact clamp_value_of_hi_lt_lo _ _ _ (by omega)
  · intro h
    rw [eh] at h
    rw [ey]
    exact clamp_value_of_hi_lt_lo _ _ _ (by omega)

/-- Witness for C5: a three-column bubble on a 100x100 canvas exceeds both
clampable ranges and is pinned to (40, 40), at both anchors. -/
theorem serif_bubble_layout_pinned_witness :
    ((calculate_serif_bubble_layout 100 100 ['あ', 'い', 'う'] 48 1
        "top_right".toList).bubble_x = 40 ∧
      (calculate_serif_bubble_layout 100 100 ['あ', 'い', 'う'] 48 1
        "top_right".toList).bubble_y = 40) ∧
    ((calculate_serif_bubble_layout 100 100 ['あ', 'い', 'う'] 48 1
        "bottom_left".toList).bubble_x = 40 ∧
      (calculate_serif_bubble_layout 100 100 ['あ', 'い', 'う'] 48 1
        "bottom_left".toList).bubble_y = 40) :=
  ⟨⟨(serif_bubble_layout_pinned 100 100 ['あ', 'い', 'う'] 48 1
        "top_right".toList).1 (by decide),
    (serif_bubble_layout_pinned 100 100 ['あ', 'い', 'う'] 48 1
        "top_right".toList).2 (by decide)⟩,
    ⟨(serif_bubble_layout_pinned 100 100 ['あ', 'い', 'う'] 48 1
        "bottom_left".toList).1 (by decide),
    (serif_bubble_layout_pinned 100 100 ['あ', 'い', 'う'] 48 1
        "bottom_left".toList).2 (by decide)⟩⟩

/-- Counterexample for C4: two identical 700px-tall bubbles at y = 40 on the
default 1280px canvas.  Pushing the second below the first would overflow
the canvas, so it is pushed above and floored at the 40px margin, landing
exactly on its original position; the two vertical spans coincide, so they
intersect, contradicting the claim. -/
theorem adjust_identical_counterexample :
    adjust_bubble_positions 1280 [c4TallBubble, c4TallBubble] =
      [c4TallBubble, c4TallBubble] ∧
    vertSpansIntersect c4TallBubble c4TallBubble := by
  constructor
  · decide
  · constructor
    · decide
    · decide

/-- C4 as amended: for two identical bubbles with non-negative extents, the
second output bubble's vertical span is disjoint from the first's provided
either the push-below position fits inside the canvas minus the 40px margin
or the push-above position is not floored (it stays at or above the
margin); when both pushes leave the canvas the floored bubble can land back
on the first one (see the counterexample). -/
theorem adjust_identical_disjoint :
    ∀ (ch : Int) (b : BubbleLayout),
      0 ≤ b.bubble_width → 0 ≤ b.bubble_height →
      (b.bubble_y + 2 * b.bubble_height + 20 ≤ ch - 40 ∨
        40 + b.bubble_height + 20 ≤ b.bubble_y) →
      adjust_bubble_positions ch [b, b] = [b, adjust_bubble_position ch b b] ∧
      ¬ vertSpansIntersect b (adjust_bubble_position ch b b) := by
  intro ch b hw hh hcase
  have hov : bubbles_overlap b b = true := by
    unfold bubbles_overlap
    simp only [Bool.not_eq_true', Bool.or_eq_false_iff, decide_eq_false_iff_not]
    omega
  constructor
  · have e1 : adjust_bubble_positions ch [b, b] =
        [b, if bubbles_overlap b b = true then adjust_bubble_position ch b b else b] := rfl
    rw [e1, if_pos hov]
  · unfold adjust_bubble_position vertSpansIntersect
    dsimp only
    split_ifs with hcond
    · rcases hcase with hcase | hcase
      · omega
      · have hmax : max 40 (b.bubble_y - b.bubble_height - 20) =
            b.bubble_y - b.bubble_height - 20 := max_eq_right (by omega)
        rw [hmax]
        rintro ⟨h1, h2⟩
        omega
    · rintro ⟨h1, h2⟩
      omega

/-- Witness for C4 as amended: a 100px-tall bubble at y = 40 on the 1280px
canvas is pushed below with a 20px gap and the spans are disjoint. -/
theorem adjust_identical_disjoint_witness :
    adjust_bubble_positions 1280 [c4ShortBubble, c4ShortBubble] =
      [c4ShortBubble, adjust_bubble_position 1280 c4ShortBubble c4ShortBubble] ∧
    ¬ vertSpansIntersect c4ShortBubble
      (adjust_bubble_position 1280 c4ShortBubble c4ShortBubble) :=
  adjust_identical_disjoint 1280 c4ShortBubble (by decide) (by decide)
    (Or.inl (by decide))

lemma sameExceptVertical_refl (b : BubbleLayout) : sameExceptVertical b b :=
  ⟨rfl, rfl, rfl, rfl, rfl, rfl⟩

lemma sameExceptVertical_trans {a b c : BubbleLayout}
    (h1 : sameExceptVertical a b) (h2 : sameExceptVertical b c) :
    sameExceptVertical a c :=
  ⟨h2.1.trans h1.1, h2.2.1.trans h1.2.1, h2.2.2.1.trans h1.2.2.1,
    h2.2.2.2.1.trans h1.2.2.2.1, h2.2.2.2.2.1.trans h1.2.2.2.2.1,
    h2.2.2.2.2.2.trans h1.2.2.2.2.2⟩

lemma sameExceptVertical_adjust (ch : Int) (b e : BubbleLayout) :
    sameExceptVertical b (adjust_bubble_position ch b e) := by
  unfold adjust_bubble_position
  exact ⟨rfl, rfl, rfl, rfl, rfl, rfl⟩

lemma sameExceptVertical_adjust_against (ch : Int) (placed : List BubbleLayout)
    (b : BubbleLayout) : sameExceptVertical b (adjust_against ch placed b) := by
  unfold adjust_against
  induction placed generalizing b with
  | nil => exact sameExceptVertical_refl b
  | cons e es ih =>
    rw [List.foldl_cons]
    refine sameExceptVertical_trans ?_ (ih _)
    split
    · exact sameExceptVertical_adjust ch b e
    · exact sameExceptVertical_refl b

lemma adjust_fold_spec (ch : Int) :
    ∀ (bs acc : List BubbleLayout),
      ∃ out,
        bs.foldl (fun placed b => placed ++ [adjust_against ch placed b]) acc =
          acc ++ out ∧
        List.Forall₂ sameExceptVertical bs out := by
  intro bs
  induction bs with
  | nil => exact fun acc => ⟨[], by simp, List.Forall₂.nil⟩
  | cons b bs ih =>
    intro acc
    rcases ih (acc ++ [adjust_against ch acc b]) with ⟨out, heq, hf⟩
    refine ⟨adjust_against ch acc b :: out, ?_, ?_⟩
    · rw [List.foldl_cons, heq, List.append_assoc]
      rfl
    · exact List.Forall₂.cons (sameExceptVertical_adjust_against ch acc b) hf

/-- C8: overlap resolution returns a list of the same length in the same
order, and each output bubble agrees with its input bubble on everything
except possibly `bubble_y` and `text_y`. -/
theorem adjust_bubble_positions_frame :
    ∀ (ch : Int) (bubbles : List BubbleLayout),
      List.Forall₂ sameExceptVertical bubbles (adjust_bubble_positions ch bubbles) ∧
      (adjust_bubble_positions ch bubbles).length = bubbles.length := by
  intro ch bubbles
  have hmain : List.Forall₂ sameExceptVertical bubbles
      (adjust_bubble_positions ch bubbles) := by
    unfold adjust_bubble_positions
    split
    · exact List.forall₂_same.mpr (fun b _ => sameExceptVertical_refl b)
    · rcases adjust_fold_spec ch bubbles [] with ⟨out, heq, hf⟩
      rw [heq]
      simpa using hf
  exact ⟨hmain, (hmain.length_eq).symm⟩

lemma render_loop_files (oc : Nat → RenderOutcome) (san : Str) :
    ∀ (blocks : List OutputBlock) (k : Nat),
      (render_loop oc san blocks k).2 =
        (blocks.enumFrom k).filterMap (fun p =>
          if valid_block_type p.2.type = true ∧ oc p.1 = RenderOutcome.ok then
            some (generate_output_filename san p.1 "jpg".toList)
          else none) := by
  intro blocks
  induction blocks with
  | nil => intro k; rfl
  | cons b bs ih =>
    intro k
    cases hoc : oc k with
    | ok =>
      by_cases hv : valid_block_type b.type = true
      · simp [render_loop, hoc, hv, ih (k + 1), List.enumFrom, List.filterMap_cons]
      · simp [render_loop, hoc, hv, ih (k + 1), List.enumFrom, List.filterMap_cons]
    | fail =>
      by_cases hv : valid_block_type b.type = true
      · simp [render_loop, hoc, hv, ih (k + 1), List.enumFrom, List.filterMap_cons]
      · simp [render_loop, hoc, hv, ih (k + 1), List.enumFrom, List.filterMap_cons]
    | exc => simp [render_loop, hoc, ih (k + 1), List.enumFrom, List.filterMap_cons]

lemma render_loop_errs (oc : Nat → RenderOutcome) (san : Str) :
    ∀ (blocks : List OutputBlock) (k : Nat),
      (render_loop oc san blocks k).1 =
        (blocks.enumFrom k).flatMap (fun p =>
          match oc p.1 with
          | RenderOutcome.exc => [RenderError.raised p.1]
          | RenderOutcome.ok =>
            if valid_block_type p.2.type then []
            else [RenderError.unknown_type p.1, RenderError.failed p.1]
          | RenderOutcome.fail =>
            if valid_block_type p.2.type then [RenderError.failed p.1]
            else [RenderError.unknown_type p.1, RenderError.failed p.1]) := by
  intro blocks
  induction blocks with
  | nil => intro k; rfl
  | cons b bs ih =>
    intro k
    cases hoc : oc k with
    | ok =>
      by_cases hv : valid_block_type b.type = true
      · simp [render_loop, hoc, hv, ih (k + 1), List.enumFrom]
      · simp [render_loop, hoc, hv, ih (k + 1), List.enumFrom]
    | fail =>
      by_cases hv : valid_block_type b.type = true
      · simp [render_loop, hoc, hv, ih (k + 1), List.enumFrom]
      · simp [render_loop, hoc, hv, ih (k + 1), List.enumFrom]
    | exc => simp [render_loop, hoc, ih (k + 1), List.enumFrom]

/-- C9: instruction k (1-based) targets the output name built from the
sanitized base name and k zero-padded to three digits, with the written
files being exactly those of the instructions that rendered successfully -
the sequence index is the instruction's position regardless of earlier
failures or exceptions, so a failure leaves a gap in the numbering; every
error entry likewise carries the position of the instruction it reports,
and the run succeeds exactly when no errors accumulated. -/
theorem render_novel_blocks_sequencing :
    ∀ (outcome : Nat → RenderOutcome) (base : Str) (blocks : List OutputBlock),
      (render_novel_blocks outcome base blocks).2.2 =
        (blocks.enumFrom 1).filterMap (fun p =>
          if valid_block_type p.2.type = true ∧ outcome p.1 = RenderOutcome.ok then
            some (generate_output_filename (sanitize_filename base) p.1 "jpg".toList)
          else none) ∧
      (render_novel_blocks outcome base blocks).2.1 =
        (blocks.enumFrom 1).flatMap (fun p =>
          match outcome p.1 with
          | RenderOutcome.exc => [RenderError.raised p.1]
          | RenderOutcome.ok =>
            if valid_block_type p.2.type then []
            else [RenderError.unknown_type p.1, RenderError.failed p.1]
          | RenderOutcome.fail =>
            if valid_block_type p.2.type then [RenderError.failed p.1]
            else [RenderError.unknown_type p.1, RenderError.failed p.1]) ∧
      (render_novel_blocks outcome base blocks).1 =
        ((render_novel_blocks outcome base blocks).2.1).isEmpty := by
  intro outcome base blocks
  exact ⟨render_loop_files outcome (sanitize_filename base) blocks 1,
    render_loop_errs outcome (sanitize_filename base) blocks 1, rfl⟩

lemma generate_output_aux_append :
    ∀ (pre : List SceneBlock) (cur : Option Str) (rest : List SceneBlock),
      generate_output_aux cur (pre ++ rest) =
        generate_output_aux cur pre ++ generate_output_aux (threadScene cur pre) rest := by
  intro pre
  induction pre with
  | nil => intro cur rest; simp [generate_output_aux, threadScene]
  | cons b pre ih =>
    intro cur rest
    cases htype : b.block_type with
    | page_break =>
      simp [generate_output_aux, htype, threadScene, List.foldl_cons, updateScene, ih]
    | scene_only =>
      simp [generate_output_aux, htype, threadScene, List.foldl_cons, updateScene, ih]
    | scene_with_serifs =>
      simp [generate_output_aux, htype, threadScene, List.foldl_cons, updateScene, ih]
    | narration =>
      simp [generate_output_aux, htype, threadScene, List.foldl_cons, updateScene, ih]

/-- C3: a finalized SCENE_WITH_SERIFS block with a non-blank caption makes
the output-generation pass emit one image_with_serifs instruction
immediately followed by one separate narration instruction, both carrying
the same effective (carried-forward) scene number, the narration carrying
the block's stripped caption text. -/
theorem scene_with_serifs_emits_pair :
    ∀ (pre post : List SceneBlock) (b : SceneBlock),
      b.block_type = BlockType.scene_with_serifs →
      (pyStrip b.narration_text).isEmpty = false →
      generate_output_blocks (pre ++ b :: post) =
        generate_output_blocks pre ++
          (⟨"image_with_serifs".toList, updateScene (threadScene none pre) b,
            b.serifs, []⟩ : OutputBlock) ::
          (⟨"narration".toList, updateScene (threadScene none pre) b, [],
            pyStrip b.narration_text⟩ : OutputBlock) ::
          generate_output_aux (updateScene (threadScene none pre) b) post := by
  intro pre post b hty hnar
  unfold generate_output_blocks
  rw [generate_output_aux_append pre none (b :: post)]
  congr 1
  simp [generate_output_aux, hty, hnar, updateScene]

/-- Witness for C3: a concrete SCENE_WITH_SERIFS block with caption "x"
emits the image instruction followed by the narration instruction, both for
scene "001". -/
theorem scene_with_serifs_emits_pair_witness :
    generate_output_blocks ([] ++ c3DemoBlock :: []) =
      [⟨"image_with_serifs".toList, some ['0', '0', '1'],
          [⟨['A'], "top_right".toList, 1⟩], []⟩,
        ⟨"narration".toList, some ['0', '0', '1'], [], ['x']⟩] :=
  (scene_with_serifs_emits_pair [] [] c3DemoBlock rfl (by decide)).trans (by decide)

/-- Counterexample for C6: the line `「　」` carries exactly one delimited
span (whose content is the ideographic space), yet parse_serif_text
extracts no dialogue unit from it, because spans that are blank after
stripping are filtered out. -/
theorem parse_serif_text_counterexample :
    serif_findall ['「', '　', '」'] = [['　']] ∧
    parse_serif_text ['「', '　', '」'] = [] := by
  constructor
  · decide
  · decide

/-- C6 as amended: the dialogue units of a line are exactly the stripped
texts of its non-blank delimited spans, in span order - so every non-blank
span is extracted as one unit, each unit comes from its span, and a line
with several delimited spans yields as many dialogue units as it has
non-blank spans; spans that strip to nothing are dropped. -/
theorem parse_serif_text_amended :
    ∀ (line : Str),
      parse_serif_text line =
        ((serif_findall line).filter (fun m => !(pyStrip m).isEmpty)).map pyStrip ∧
      (∀ m ∈ serif_findall line, (pyStrip m).isEmpty = false →
        pyStrip m ∈ parse_serif_text line) ∧
      (parse_serif_text line).length =
        ((serif_findall line).filter (fun m => !(pyStrip m).isEmpty)).length := by
  intro line
  have hexact : parse_serif_text line =
      ((serif_findall line).filter (fun m => !(pyStrip m).isEmpty)).map pyStrip := by
    unfold parse_serif_text
    rw [List.filter_map]
    rfl
  refine ⟨hexact, ?_, ?_⟩
  · intro m hm hblank
    unfold parse_serif_text
    rw [List.mem_filter]
    exact ⟨List.mem_map.mpr ⟨m, hm, rfl⟩, by rw [hblank]; rfl⟩
  · rw [hexact, List.length_map]

/-- Witness for C6 as amended: on a line with a non-blank span and a blank
span, the extracted unit list is exactly the stripped non-blank span, and
that span's stripped text is among the units. -/
theorem parse_serif_text_amended_witness :
    parse_serif_text ['「', 'A', '」', '「', '」'] =
      ((serif_findall ['「', 'A', '」', '「', '」']).filter
        (fun m => !(pyStrip m).isEmpty)).map pyStrip ∧
    pyStrip ['A'] ∈ parse_serif_text ['「', 'A', '」', '「', '」'] :=
  ⟨(parse_serif_text_amended ['「', 'A', '」', '「', '」']).1,
    (parse_serif_text_amended ['「', 'A', '」', '「', '」']).2.1 ['A']
      (by decide) (by decide)⟩

lemma SerifOK_add :
    ∀ (ts : List Str) (s : List SerifData), SerifOK s →
      SerifOK (add_serifs_to_block s ts) := by
  intro ts
  induction ts with
  | nil => intro s h; exact h
  | cons t ts ih =>
    intro s h
    unfold add_serifs_to_block
    split
    · exact h
    · rename_i hlen
      cases s with
      | nil => exact ih _ ⟨rfl, rfl⟩
      | cons a s2 =>
        cases s2 with
        | nil => exact ih _ ⟨h.1, h.2, rfl, rfl⟩
        | cons b s3 =>
          exfalso
          apply hlen
          simp [List.length_cons]

lemma SerifOK_length_le {l : List SerifData} (h : SerifOK l) : l.length ≤ 2 := by
  cases l with
  | nil => simp
  | cons a t =>
    cases t with
    | nil => simp
    | cons b t2 =>
      cases t2 with
      | nil => simp
      | cons c t3 => exact h.elim

lemma processTextLine_serifs_ok (cur : Option SceneBlock) (line : Str)
    (hcur : ∀ b, cur = some b → SerifOK b.serifs) :
    SerifOK (processTextLine cur line).serifs := by
  cases cur with
  | none =>
    unfold processTextLine
    dsimp only
    split
    · exact trivial
    · exact SerifOK_add _ _ trivial
  | some b =>
    have hb := hcur b rfl
    unfold processTextLine
    dsimp only
    split
    · exact hb
    · split
      · split
        · exact SerifOK_add _ _ hb
        · exact SerifOK_add _ _ hb
      · exact SerifOK_add _ _ hb

lemma finalize_block_type_serifs (b : SceneBlock) :
    (finalize_block_type b).serifs = b.serifs := by
  unfold finalize_block_type
  split_ifs <;> rfl

lemma pushCur_ok {cur : Option SceneBlock} {acc : List SceneBlock}
    (hcur : ∀ b, cur = some b → SerifOK b.serifs)
    (hacc : ∀ b ∈ acc, SerifOK b.serifs) :
    ∀ b ∈ pushCur cur acc, SerifOK b.serifs := by
  cases cur with
  | none => exact hacc
  | some c =>
    intro b hb
    rcases List.mem_append.mp hb with h | h
    · exact hacc b h
    · rw [List.mem_singleton.mp h]
      exact hcur c rfl

lemma appendRaw_ok {cur : Option SceneBlock} (line : Str)
    (hcur : ∀ b, cur = some b → SerifOK b.serifs) :
    ∀ b, appendRaw cur line = some b → SerifOK b.serifs := by
  cases cur with
  | none => intro b h; exact Option.noConfusion h
  | some c =>
    intro b h
    have hb : b = { c with raw_lines := c.raw_lines ++ [line] } :=
      (Option.some.injEq _ _ ▸ h).symm
    rw [hb]
    exact hcur c rfl

lemma parse_lines_loop_serifs_ok :
    ∀ (lines : List Str) (cur : Option SceneBlock) (acc : List SceneBlock),
      (∀ b, cur = some b → SerifOK b.serifs) →
      (∀ b ∈ acc, SerifOK b.serifs) →
      ∀ b ∈ parse_lines_loop lines cur acc, SerifOK b.serifs := by
  intro lines cur acc
  induction lines, cur, acc using parse_lines_loop.induct with
  | case1 cur acc =>
    intro hcur hacc
    exact pushCur_ok hcur hacc
  | case2 l cur acc line hscene =>
    intro hcur hacc b hb
    have hs : scene_match (pyStrip l) = true := hscene
    simp only [parse_lines_loop] at hb
    rw [if_pos hs] at hb
    rcases List.mem_append.mp hb with h | h
    · exact pushCur_ok hcur hacc b h
    · rw [List.mem_singleton.mp h]
      exact trivial
  | case3 l cur acc line hscene hpara =>
    intro hcur hacc b hb
    have hs : ¬scene_match (pyStrip l) = true := hscene
    have hp : para_match (pyStrip l) = true := hpara
    simp only [parse_lines_loop] at hb
    rw [if_neg hs, if_pos hp] at hb
    rcases List.mem_append.mp hb with h | h
    · exact pushCur_ok hcur hacc b h
    · rw [List.mem_singleton.mp h]
      exact trivial
  | case4 l cur acc line hscene hpara hblank =>
    intro hcur hacc b hb
    have hs : ¬scene_match (pyStrip l) = true := hscene
    have hp : ¬para_match (pyStrip l) = true := hpara
    have he : is_empty_line (pyStrip l) = true := hblank
    simp only [parse_lines_loop] at hb
    rw [if_neg hs, if_neg hp, if_pos he] at hb
    exact pushCur_ok (appendRaw_ok _ hcur) hacc b hb
  | case5 l cur acc line hscene hpara hblank =>
    intro hcur hacc b hb
    have hs : ¬scene_match (pyStrip l) = true := hscene
    have hp : ¬para_match (pyStrip l) = true := hpara
    have he : ¬is_empty_line (pyStrip l) = true := hblank
    simp only [parse_lines_loop] at hb
    rw [if_neg hs, if_neg hp, if_neg he] at hb
    refine pushCur_ok ?_ hacc b hb
    intro c hc
    have hcval : c = processTextLine cur (pyStrip l) := (Option.some.injEq _ _ ▸ hc).symm
    rw [hcval]
    exact processTextLine_serifs_ok cur _ hcur
  | case6 l r rest cur acc line hscene acc1 num hblank ih =>
    intro hcur hacc
    have hs : scene_match (pyStrip l) = true := hscene
    have he : is_empty_line r = true := hblank
    simp only [parse_lines_loop]
    rw [if_pos hs, if_pos he]
    refine ih ?_ (pushCur_ok hcur hacc)
    intro c hc
    have hcval : c = newSceneBlock (extract_scene_number (pyStrip l)) [pyStrip l, r] true :=
      (Option.some.injEq _ _ ▸ hc).symm
    rw [hcval]
    exact trivial
  | case7 l r rest cur acc line hscene acc1 num hblank ih =>
    intro hcur hacc
    have hs : scene_match (pyStrip l) = true := hscene
    have he : ¬is_empty_line r = true := hblank
    simp only [parse_lines_loop]
    rw [if_pos hs, if_neg he]
    refine ih ?_ (pushCur_ok hcur hacc)
    intro c hc
    have hcval : c = newSceneBlock (extract_scene_number (pyStrip l)) [pyStrip l] false :=
      (Option.some.injEq _ _ ▸ hc).symm
    rw [hcval]
    exact trivial
  | case8 l r rest cur acc line hscene hpara ih =>
    intro hcur hacc
    have hs : ¬scene_match (pyStrip l) = true := hscene
    have hp : para_match (pyStrip l) = true := hpara
    simp only [parse_lines_loop]
    rw [if_neg hs, if_pos hp]
    refine ih (fun c hc => Option.noConfusion hc) ?_
    intro b hb
    rcases List.mem_append.mp hb with h | h
    · exact pushCur_ok hcur hacc b h
    · rw [List.mem_singleton.mp h]
      exact trivial
  | case9 l r rest cur acc line hscene hpara hblank ih =>
    intro hcur hacc
    have hs : ¬scene_match (pyStrip l) = true := hscene
    have hp : ¬para_match (pyStrip l) = true := hpara
    have he : is_empty_line (pyStrip l) = true := hblank
    simp only [parse_lines_loop]
    rw [if_neg hs, if_neg hp, if_pos he]
    exact ih (appendRaw_ok _ hcur) hacc
  | case10 l r rest cur acc line hscene hpara hblank ih =>
    intro hcur hacc
    have hs : ¬scene_match (pyStrip l) = true := hscene
    have hp : ¬para_match (pyStrip l) = true := hpara
    have he : ¬is_empty_line (pyStrip l) = true := hblank
    simp only [parse_lines_loop]
    rw [if_neg hs, if_neg hp, if_neg he]
    refine ih ?_ hacc
    intro c hc
    have hcval : c = processTextLine cur (pyStrip l) := (Option.some.injEq _ _ ▸ hc).symm
    rw [hcval]
    exact processTextLine_serifs_ok cur _ hcur

lemma parse_lines_serifs_ok :
    ∀ (lines : List Str), ∀ b ∈ parse_lines lines, SerifOK b.serifs := by
  intro lines b hb
  unfold parse_lines at hb
  rcases List.mem_map.mp hb with ⟨a, ha, heq⟩
  rw [← heq, finalize_block_type_serifs]
  exact parse_lines_loop_serifs_ok lines none []
    (fun c hc => Option.noConfusion hc)
    (fun c hc => absurd hc (List.not_mem_nil c)) a ha

lemma validate_loop_no_overcap :
    ∀ (blocks : List SceneBlock) (i : Nat) (seen : List Str),
      (∀ b ∈ blocks, b.serifs.length ≤ 2) →
      ∀ w ∈ validate_loop blocks i seen, isOverCapacityWarning w = false := by
  intro blocks
  induction blocks with
  | nil =>
    intro i seen _ w hw
    simp [validate_loop] at hw
  | cons b bs ih =>
    intro i seen hlen w hw
    have hble : b.serifs.length ≤ 2 := hlen b (List.mem_cons_self b bs)
    have hov : ¬2 < b.serifs.length := by omega
    unfold validate_loop at hw
    rw [if_neg hov] at hw
    rcases List.mem_append.mp hw with hw1 | hrec
    · rcases List.mem_append.mp hw1 with hw2 | hempt
      · rcases List.mem_append.mp hw2 with hdup | hnil
        · cases hsn : b.scene_number with
          | none =>
            rw [hsn] at hdup
            simp at hdup
          | some n =>
            rw [hsn] at hdup
            have hdup2 : w ∈ (if n ∈ seen then [StructureWarning.duplicate_scene n] else []) :=
              hdup
            split at hdup2
            · rw [List.mem_singleton.mp hdup2]
              rfl
            · simp at hdup2
        · simp at hnil
      · rcases List.mem_filterMap.mp hempt with ⟨s, _, hs⟩
        split at hs
        · rw [← (Option.some.injEq _ _).mp hs]
          rfl
        · exact Option.noConfusion hs
    · exact ih (i + 1) _ (fun c hc => hlen c (List.mem_cons_of_mem b hc)) w hrec

/-- C2: every block the parser produces carries at most two serifs, the
first at the first-slot position "top_right" with order 1 and the second at
the second-slot position "bottom_left" with order 2; the validation pass
never reports the over-capacity warning, because serifs beyond the cap are
silently dropped - appending to a block that already holds two serifs
returns it unchanged. -/
theorem serif_cap_and_slots :
    (∀ (lines : List Str), ∀ b ∈ parse_lines lines,
        b.serifs.length ≤ 2 ∧ SerifOK b.serifs) ∧
    (∀ (lines : List Str), ∀ w ∈ validate_text_structure (parse_lines lines),
        isOverCapacityWarning w = false) ∧
    (∀ (serifs : List SerifData) (texts : List Str),
        2 ≤ serifs.length → add_serifs_to_block serifs texts = serifs) := by
  refine ⟨?_, ?_, ?_⟩
  · intro lines b hb
    have h := parse_lines_serifs_ok lines b hb
    exact ⟨SerifOK_length_le h, h⟩
  · intro lines w hw
    refine validate_loop_no_overcap (parse_lines lines) 0 [] ?_ w hw
    intro b hb
    exact SerifOK_length_le (parse_lines_serifs_ok lines b hb)
  · intro serifs texts hlen
    cases texts with
    | nil => rfl
    | cons t ts =>
      unfold add_serifs_to_block
      rw [if_pos hlen]

/-- Witness for C2: a line with three dialogue spans parses to a block
whose serif list keeps exactly the first two, correctly slotted. -/
theorem serif_cap_and_slots_witness :
    c2DemoBlock ∈ parse_lines c2DemoLines ∧
    (c2DemoBlock.serifs.length ≤ 2 ∧ SerifOK c2DemoBlock.serifs) :=
  ⟨by decide, serif_cap_and_slots.1 c2DemoLines c2DemoBlock (by decide)⟩

lemma sumLen_nil : sumLen [] = 0 := rfl

lemma sumLen_cons (c : Str) (cs : List Str) :
    sumLen (c :: cs) = c.length + sumLen cs := by
  simp [sumLen]

lemma sumLen_append (a b : List Str) : sumLen (a ++ b) = sumLen a + sumLen b := by
  simp [sumLen]

lemma flatten_length_eq_sumLen (l : List Str) : l.flatten.length = sumLen l := by
  simp [sumLen, List.length_flatten]

lemma sumLen_dropLast_le (l : List Str) : sumLen l.dropLast ≤ sumLen l := by
  induction l with
  | nil => simp [sumLen]
  | cons c cs ih =>
    cases cs with
    | nil => simp [sumLen]
    | cons d ds =>
      have e : (c :: d :: ds).dropLast = c :: (d :: ds).dropLast := rfl
      rw [e, sumLen_cons, sumLen_cons]
      omega

lemma takeFit_sum_le (width : Nat) :
    ∀ (chunks : List Str) (cur : Nat), cur ≤ width →
      cur + sumLen (takeFit width cur chunks).1 ≤ width := by
  intro chunks
  induction chunks with
  | nil =>
    intro cur h
    simpa [takeFit, sumLen] using h
  | cons c cs ih =>
    intro cur h
    unfold takeFit
    split
    · rename_i hfit
      dsimp only
      rw [sumLen_cons]
      have hrec := ih (cur + c.length) hfit
      omega
    · dsimp only
      rw [sumLen_nil]
      omega

lemma wrapFill_line_le (width : Nat) (hw : 1 ≤ width) :
    ∀ (chunks : List Str) (line : Str) (rest : List Str),
      wrapFill width chunks = (some line, rest) → line.length ≤ width := by
  have hq : ∀ q1 : List Str, sumLen q1 ≤ width →
      ∀ (line : Str) (rest : List Str) (r2 : List Str),
        ((let ln :=
            match q1.getLast? with
            | some t => if (pyStrip t).isEmpty then q1.dropLast else q1
            | none => q1
          if ln.isEmpty then (none, r2) else (some ln.flatten, r2)) :
            Option Str × List Str) = (some line, rest) →
        line.length ≤ width := by
    intro q1 hle line rest r2 h
    have hd := sumLen_dropLast_le q1
    cases hgl : q1.getLast? with
    | none =>
      rw [hgl] at h
      dsimp only at h
      split at h
      · simp at h
      · have : line = q1.flatten := by
          have := (Prod.mk.injEq _ _ _ _).mp h
          exact (Option.some.injEq _ _ |>.mp this.1).symm
        rw [this, flatten_length_eq_sumLen]
        exact hle
    | some t =>
      rw [hgl] at h
      dsimp only at h
      split at h
      · split at h
        · simp at h
        · have : line = q1.dropLast.flatten := by
            have := (Prod.mk.injEq _ _ _ _).mp h
            exact (Option.some.injEq _ _ |>.mp this.1).symm
          rw [this, flatten_length_eq_sumLen]
          omega
      · split at h
        · simp at h
        · have : line = q1.flatten := by
            have := (Prod.mk.injEq _ _ _ _).mp h
            exact (Option.some.injEq _ _ |>.mp this.1).symm
          rw [this, flatten_length_eq_sumLen]
          exact hle
  intro chunks line rest h
  cases chunks with
  | nil => simp [wrapFill] at h
  | cons c1 rest1 =>
    unfold wrapFill at h
    dsimp only at h
    have hfit := takeFit_sum_le width (c1 :: rest1) 0 (by omega)
    rw [Nat.zero_add] at hfit
    cases h2 : (takeFit width 0 (c1 :: rest1)).2 with
    | nil =>
      rw [h2] at h
      dsimp only at h
      exact hq _ hfit line rest _ h
    | cons r rs =>
      rw [h2] at h
      dsimp only at h
      by_cases hlong : width < r.length
      · rw [if_pos hlong] at h
        dsimp only at h
        refine hq _ ?_ line rest _ h
        rw [sumLen_append, sumLen_cons, sumLen_nil]
        rw [if_neg (by omega : ¬width < 1)]
        have hpiece : (r.take (width - sumLen (takeFit width 0 (c1 :: rest1)).1)).length ≤
            width - sumLen (takeFit width 0 (c1 :: rest1)).1 := by
          simp [List.length_take]
        omega
      · rw [if_neg hlong] at h
        exact hq _ hfit line rest _ h

lemma wrapStep_line_le (width : Nat) (hw : 1 ≤ width) (c0 : Str)
    (rest0 : List Str) (flag : Bool) :
    ∀ (line : Str) (rest : List Str),
      wrapStep width c0 rest0 flag = (some line, rest) → line.length ≤ width := by
  intro line rest h
  exact wrapFill_line_le width hw _ line rest h

lemma wrapLoopFuel_line_le (width : Nat) (hw : 1 ≤ width) :
    ∀ (fuel : Nat) (chunks : List Str) (flag : Bool),
      ∀ l ∈ wrapLoopFuel width fuel chunks flag, l.length ≤ width := by
  intro fuel
  induction fuel with
  | zero =>
    intro chunks flag l hl
    simp [wrapLoopFuel] at hl
  | succ fuel ih =>
    intro chunks flag l hl
    cases chunks with
    | nil => simp [wrapLoopFuel] at hl
    | cons c0 rest0 =>
      unfold wrapLoopFuel at hl
      cases hstep : wrapStep width c0 rest0 flag with
      | mk emitted rest =>
        rw [hstep] at hl
        cases emitted with
        | none => exact ih rest flag l hl
        | some line =>
          dsimp only at hl
          rcases List.mem_cons.mp hl with hl | hl
          · rw [hl]
            exact wrapStep_line_le width hw c0 rest0 flag line rest hstep
          · exact ih rest true l hl

lemma dropWhile_all_false {q : Char → Bool} :
    ∀ {l : Str}, (∀ c ∈ l, q c = false) → l.dropWhile q = l := by
  intro l h
  cases l with
  | nil => rfl
  | cons c cs =>
    rw [List.dropWhile_cons, h c (List.mem_cons_self c cs)]
    rfl

lemma pyStrip_no_ws {p : Str} (h : ∀ c ∈ p, pyIsSpace c = false) :
    pyStrip p = p := by
  unfold pyStrip List.rdropWhile
  rw [dropWhile_all_false h,
    dropWhile_all_false (fun c hc => h c (List.mem_reverse.mp hc)),
    List.reverse_reverse]

lemma expandTabs_id :
    ∀ (p : Str) (col : Nat), (∀ c ∈ p, pyIsSpace c = false) →
      expandTabs p col = p := by
  intro p
  induction p with
  | nil => intro col _; rfl
  | cons c cs ih =>
    intro col h
    have hc := h c (List.mem_cons_self c cs)
    have htab : ¬c = '\t' := by
      intro e; rw [e] at hc; exact absurd hc (by decide)
    have hnl : ¬(c = '\n' ∨ c = '\r') := by
      rintro (e | e) <;> (rw [e] at hc; exact absurd hc (by decide))
    unfold expandTabs
    rw [if_neg htab, if_neg hnl, ih _ (fun d hd => h d (List.mem_cons_of_mem c hd))]

lemma translateWs_id (p : Str) (h : ∀ c ∈ p, pyIsSpace c = false) :
    translateWs p = p := by
  unfold translateWs
  induction p with
  | nil => rfl
  | cons c cs ih =>
    have hc := h c (List.mem_cons_self c cs)
    have hcond : ¬(c = '\t' ∨ c = '\n' ∨ c = '\x0b' ∨ c = '\x0c' ∨ c = '\r') := by
      rintro (e | e | e | e | e) <;> (rw [e] at hc; exact absurd hc (by decide))
    rw [List.map_cons, if_neg hcond, ih (fun d hd => h d (List.mem_cons_of_mem c hd))]

lemma mungeWhitespace_id (p : Str) (h : ∀ c ∈ p, pyIsSpace c = false) :
    mungeWhitespace p = p := by
  unfold mungeWhitespace
  rw [expandTabs_id p 0 h, translateWs_id p h]

lemma splitChunks_single :
    ∀ {p : Str}, p ≠ [] → (∀ c ∈ p, pyIsSpace c = false) →
      splitChunks p = [p] := by
  intro p
  induction p with
  | nil => intro hne _; exact absurd rfl hne
  | cons c cs ih =>
    intro _ h
    cases cs with
    | nil => rfl
    | cons d ds =>
      have hrec : splitChunks (d :: ds) = [d :: ds] :=
        ih (by simp) (fun x hx => h x (List.mem_cons_of_mem c hx))
      have e : splitChunks (c :: d :: ds) =
          (match splitChunks (d :: ds) with
            | [] => [[c]]
            | [] :: rest => [c] :: [] :: rest
            | (d2 :: ds2) :: rest =>
              if pyIsSpace c = pyIsSpace d2 then (c :: d2 :: ds2) :: rest
              else [c] :: (d2 :: ds2) :: rest) := rfl
      rw [e, hrec]
      dsimp only
      rw [if_pos ((h c (List.mem_cons_self _ _)).trans
        (h d (List.mem_cons_of_mem c (List.mem_cons_self _ _))).symm)]

lemma wrapLoopFuel_nil (width : Nat) :
    ∀ (fuel : Nat) (flag : Bool), wrapLoopFuel width fuel [] flag = [] := by
  intro fuel flag
  cases fuel <;> rfl

lemma wrapFill_single_fits {width : Nat} {p : Str} (hne : p ≠ [])
    (hstrip : pyStrip p = p) (hle : p.length ≤ width) :
    wrapFill width [p] = (some p, []) := by
  have hpe : p.isEmpty = false := List.isEmpty_eq_false.mpr hne
  have ht : takeFit width 0 [p] = ([p], []) := by
    unfold takeFit
    rw [if_pos (by omega : 0 + p.length ≤ width)]
    rfl
  unfold wrapFill
  dsimp only
  rw [ht]
  dsimp only
  rw [show ([p] : List Str).getLast? = some p from rfl]
  dsimp only
  rw [hstrip, hpe]
  rw [if_neg (by decide : ¬(false = true))]
  rw [show (([p] : List Str).isEmpty) = false from rfl]
  rw [if_neg (by decide : ¬(false = true))]
  rw [show ([p] : List Str).flatten = p ++ [] from rfl, List.append_nil]

lemma wrapFill_single_long {width : Nat} {p : Str} (hw : 1 ≤ width)
    (hstripTake : pyStrip (p.take width) = p.take width)
    (hlt : width < p.length) :
    wrapFill width [p] = (some (p.take width), [p.drop width]) := by
  have htne : p.take width ≠ [] := by
    intro e
    have h1 := congrArg List.length e
    rw [List.length_take] at h1
    have h2 : width ⊓ p.length = width := by
      exact min_eq_left (by omega)
    rw [h2] at h1
    simp at h1
    omega
  have htpe : (p.take width).isEmpty = false := List.isEmpty_eq_false.mpr htne
  have ht : takeFit width 0 [p] = ([], [p]) := by
    unfold takeFit
    rw [if_neg (by omega : ¬0 + p.length ≤ width)]
  unfold wrapFill
  dsimp only
  rw [ht]
  dsimp only
  rw [if_pos hlt, if_neg (by omega : ¬width < 1)]
  rw [show sumLen ([] : List Str) = 0 from rfl, Nat.sub_zero]
  rw [show (([] : List Str) ++ [p.take width]) = [p.take width] from rfl]
  dsimp only
  rw [show ([p.take width] : List Str).getLast? = some (p.take width) from rfl]
  dsimp only
  rw [hstripTake, htpe]
  rw [if_neg (by decide : ¬(false = true))]
  rw [show (([p.take width] : List Str).isEmpty) = false from rfl]
  rw [if_neg (by decide : ¬(false = true))]
  rw [show ([p.take width] : List Str).flatten = p.take width ++ [] from rfl,
    List.append_nil]

lemma wrapLoopFuel_single (width : Nat) (hw : 1 ≤ width) :
    ∀ (fuel : Nat) (p : Str) (flag : Bool), p ≠ [] →
      (∀ c ∈ p, pyIsSpace c = false) → p.length + 1 ≤ fuel →
      (wrapLoopFuel width fuel [p] flag).flatten = p := by
  intro fuel
  induction fuel with
  | zero =>
    intro p flag hne h hf
    exact absurd hf (by omega)
  | succ fuel ih =>
    intro p flag hne h hf
    have hstrip : pyStrip p = p := pyStrip_no_ws h
    have hpe : p.isEmpty = false := List.isEmpty_eq_false.mpr hne
    have hstepeq : wrapStep width p [] flag = wrapFill width [p] := by
      unfold wrapStep
      rw [hstrip, hpe]
      rw [show (flag && false) = false from Bool.and_false flag]
      rfl
    by_cases hle : p.length ≤ width
    · have hfill := wrapFill_single_fits hne hstrip hle
      have e : wrapLoopFuel width (fuel + 1) [p] flag =
          (match wrapStep width p [] flag with
            | (none, rest) => wrapLoopFuel width fuel rest flag
            | (some line, rest) => line :: wrapLoopFuel width fuel rest true) := rfl
      rw [e, hstepeq, hfill]
      dsimp only
      rw [List.flatten_cons, wrapLoopFuel_nil]
      exact List.append_nil p
    · have hlt : width < p.length := by omega
      have hstripTake : pyStrip (p.take width) = p.take width :=
        pyStrip_no_ws (fun c hc => h c (List.take_subset width p hc))
      have hfill := wrapFill_single_long hw hstripTake hlt
      have e : wrapLoopFuel width (fuel + 1) [p] flag =
          (match wrapStep width p [] flag with
            | (none, rest) => wrapLoopFuel width fuel rest flag
            | (some line, rest) => line :: wrapLoopFuel width fuel rest true) := rfl
      rw [e, hstepeq, hfill]
      dsimp only
      rw [List.flatten_cons]
      have hdne : p.drop width ≠ [] := by
        intro hd
        have := congrArg List.length hd
        rw [List.length_drop] at this
        simp at this
        omega
      have hrec := ih (p.drop width) true hdne
        (fun c hc => h c (List.drop_subset width p hc))
        (by rw [List.length_drop]; omega)
      rw [hrec]
      exact List.take_append_drop width p

lemma textwrap_wrap_flatten {width : Nat} (hw : 1 ≤ width) {p : Str}
    (hne : p ≠ []) (h : ∀ c ∈ p, pyIsSpace c = false) :
    (textwrap_wrap p width).flatten = p := by
  unfold textwrap_wrap
  rw [mungeWhitespace_id p h, splitChunks_single hne h]
  dsimp only
  rw [show sumLen [p] + ([p] : List Str).length + 1 = p.length + 2 by
    rw [sumLen_cons, sumLen_nil]; rfl]
  exact wrapLoopFuel_single width hw (p.length + 2) p false hne h (by omega)

lemma wrap_paragraph_flatten (width : Nat) (hw : 1 ≤ width) (p : Str)
    (h : ∀ c ∈ p, pyIsSpace c = false) :
    (wrap_paragraph p width).flatten = p := by
  by_cases hnil : p = []
  · rw [hnil]; rfl
  · have hpe : p.isEmpty = false := List.isEmpty_eq_false.mpr hnil
    unfold wrap_paragraph
    rw [pyStrip_no_ws h, hpe]
    rw [if_neg (by decide : ¬(false = true))]
    dsimp only
    by_cases hwe : (textwrap_wrap p width).isEmpty = true
    · exfalso
      have hflat := textwrap_wrap_flatten hw hnil h
      rw [List.isEmpty_iff.mp hwe] at hflat
      exact hnil hflat.symm
    · rw [if_neg hwe]
      exact textwrap_wrap_flatten hw hnil h

/-- Counterexample for C1: wrapping the two-character text "a " (letter and
trailing space) at width 5 produces the single line "a", losing the space
with no wrap point to re-insert, so concatenation cannot reproduce the
paragraph. -/
theorem wrap_text_counterexample :
    wrap_text ['a', ' '] 5 = [['a']] ∧
    (wrap_text ['a', ' '] 5).flatten ≠ ['a', ' '] := by
  constructor
  · rfl
  · decide

/-- C1 as amended: for `max_chars_per_line = n ≥ 1` every produced line has
length at most n, and for every newline-separated paragraph that contains
no whitespace characters, concatenating that paragraph's produced lines
reproduces the paragraph exactly; paragraphs containing whitespace can lose
or rewrite whitespace characters (textwrap's whitespace munging and
drop_whitespace, see the counterexample). -/
theorem wrap_text_amended :
    ∀ (text : Str) (n : Nat), 1 ≤ n →
      (∀ l ∈ wrap_text text n, l.length ≤ n) ∧
      (∀ p ∈ splitNl text, (∀ c ∈ p, pyIsSpace c = false) →
        (wrap_paragraph p n).flatten = p) := by
  intro text n hn
  constructor
  · intro l hl
    unfold wrap_text at hl
    rcases List.mem_flatMap.mp hl with ⟨p, _, hlp⟩
    unfold wrap_paragraph at hlp
    split at hlp
    · rw [List.mem_singleton.mp hlp]
      simp
    · dsimp only at hlp
      split at hlp
      · rw [List.mem_singleton.mp hlp]
        simp
      · unfold textwrap_wrap at hlp
        exact wrapLoopFuel_line_le n hn _ _ _ l hlp
  · intro p _ hp
    exact wrap_paragraph_flatten n hn p hp

/-- Witness for C1 as amended: both conclusions evaluated on the concrete
text "ab\ncd" at width 1. -/
theorem wrap_text_amended_witness :
    ['a'] ∈ wrap_text ['a', 'b', '\n', 'c', 'd'] 1 ∧ (['a'] : Str).length ≤ 1 ∧
    (wrap_paragraph ['c', 'd'] 1).flatten = ['c', 'd'] :=
  ⟨by decide,
    (wrap_text_amended ['a', 'b', '\n', 'c', 'd'] 1 (by decide)).1 ['a'] (by decide),
    (wrap_text_amended ['a', 'b', '\n', 'c', 'd'] 1 (by decide)).2 ['c', 'd']
      (by decide) (by decide)⟩
